import Mathlib

/- Verification of the agentic app-generation core in src/agent/createApp.ts:
   the write_file tool-use loop, the JS-Map file accumulator, and the image
   validation/compression pipeline.  The repository bundles two revisions of
   createApp.ts in that file; their loop, image helpers and error handling
   are identical (they differ only in prompt text and token budgets), and
   this development follows the first revision.  External effects are made
   explicit: the LLM is a function parameter (a "model stub" from the system
   prompt and the conversation to the response content blocks), the sharp
   image library is abstracted by the image metadata (width/height) and an
   encoding function from target dimensions and JPEG quality to an output
   byte buffer, and byte buffers are lists of bytes.  JavaScript string
   truthiness (empty string is falsy) and JS Map insertion-order semantics
   are modelled explicitly. -/

namespace Makeable

/-- A generated file: `interface GeneratedFile { path: string; content: string }`. -/
structure GeneratedFile where
  path : String
  content : String
deriving DecidableEq

/-- The result record: `interface AppGenerationResult { files: GeneratedFile[] }`. -/
structure AppGenerationResult where
  files : List GeneratedFile
deriving DecidableEq

/-- The file accumulator `generatedFiles : Map<string, string>`, modelled as an
insertion-ordered association list. -/
abbrev FileMap := List (String × String)

/-- `Map.set`: if the key is already present its value is updated in place
(keeping its insertion position, as a JS Map does); otherwise the binding is
appended at the end. -/
def mapSet (m : FileMap) (k v : String) : FileMap :=
  if m.any (fun p => p.1 == k) then
    m.map (fun p => if p.1 == k then (k, v) else p)
  else
    m ++ [(k, v)]

/-- `Map.get`: the value stored at a key, if any. -/
def mapGet (m : FileMap) (k : String) : Option String :=
  (m.find? (fun p => p.1 == k)).map (fun p => p.2)

/-- JavaScript `Math.round(num / den)` for natural `num`, `den` (`den > 0`):
round half up. -/
def jsRound (num den : Nat) : Nat :=
  (2 * num + den) / (2 * den)

/-- Target-dimension computation of `compressImage` (createApp.ts lines 21-37):
shrink so the longer side is at most 1024 px, preserving aspect ratio with
`Math.round`; the guard `if (width && height)` is JS truthiness, so missing or
zero dimensions leave the pair unchanged. -/
def computeTargetDims : Option Nat → Option Nat → Option Nat × Option Nat
  | some w, some h =>
    if w ≠ 0 ∧ h ≠ 0 then
      if h < w then
        if 1024 < w then (some 1024, some (jsRound (h * 1024) w)) else (some w, some h)
      else
        if 1024 < h then (some (jsRound (w * 1024) h), some 1024) else (some w, some h)
    else (some w, some h)
  | w?, h? => (w?, h?)

/-- The message surfaced by `compressImage` when compression fails (the inner
size-limit error is caught and rethrown as this generic error). -/
def compressionFailMsg : String := "Failed to compress image"

/-- The `while (compressedBuffer.length > maxSizeBytes && quality > 10)` loop of
`compressImage`, re-encoding at `quality - 10` each iteration.  The first
argument is fuel; the quality drops by 10 per iteration, so fuel equal to the
starting quality is always sufficient. -/
def compressLoopGo (enc : Option Nat × Option Nat → Nat → List Nat)
    (dims : Option Nat × Option Nat) (maxSizeBytes : Nat) :
    Nat → Nat → List Nat → Nat × List Nat
  | 0, quality, buf => (quality, buf)
  | fuel + 1, quality, buf =>
    if maxSizeBytes < buf.length ∧ 10 < quality then
      compressLoopGo enc dims maxSizeBytes fuel (quality - 10) (enc dims (quality - 10))
    else (quality, buf)

/-- `compressImage(imageBuffer, maxSizeMB)` (createApp.ts lines 14-64), with
sharp abstracted: `meta` is the decoded width/height and `enc dims q` is the
byte buffer produced by `sharp(imageBuffer).resize(dims).jpeg({quality: q})`.
Starts at quality 80, decrements by 10 down to the floor of 10, and fails if
the result still exceeds `maxSizeMB * 1024 * 1024` bytes. -/
def compressImage (meta : Option Nat × Option Nat)
    (enc : Option Nat × Option Nat → Nat → List Nat) (maxSizeMB : Nat) :
    Except String (List Nat) :=
  let maxSizeBytes := maxSizeMB * 1024 * 1024
  let dims := computeTargetDims meta.1 meta.2
  let r := compressLoopGo enc dims maxSizeBytes 80 80 (enc dims 80)
  if maxSizeBytes < r.2.length then Except.error compressionFailMsg
  else Except.ok r.2

/-- `validateImageSize(buffer, maxSizeMB)` (createApp.ts lines 67-70): true iff
the buffer byte length is at most `maxSizeMB * 1024 * 1024`. -/
def validateImageSize (buffer : List Nat) (maxSizeMB : Nat) : Bool :=
  decide (buffer.length ≤ maxSizeMB * 1024 * 1024)

/-- One block of a structured user-message content array.  An image block
carries its source type, the decoded byte payload, and the sharp-visible
behaviour of that payload (metadata and encoder); any other block is opaque. -/
inductive ContentItem where
  | image (srcType : String) (data : List Nat) (meta : Option Nat × Option Nat)
      (enc : Option Nat × Option Nat → Nat → List Nat)
  | other (payload : String)

/-- The array branch of `processMessageContent` (createApp.ts lines 99-132):
walk the blocks in order; a base64 image block is kept as is when its payload
passes `validateImageSize` (default ceiling 5 MB), has its data replaced by the
compressed payload when oversized and compression succeeds, and is dropped
(`continue` in the catch) when compression fails; every other block is kept
unchanged.  The second component counts the `compressImage` invocations. -/
def processItems : List ContentItem → List ContentItem × Nat
  | [] => ([], 0)
  | item :: rest =>
    let r := processItems rest
    match item with
    | ContentItem.image srcType data meta enc =>
      if srcType == "base64" then
        if validateImageSize data 5 then (item :: r.1, r.2)
        else
          match compressImage meta enc 5 with
          | Except.ok newData => (ContentItem.image srcType newData meta enc :: r.1, r.2 + 1)
          | Except.error _ => (r.1, r.2 + 1)
      else (item :: r.1, r.2)
    | ContentItem.other _ => (item :: r.1, r.2)

/-- Message content is either a plain string or an array of blocks, matching
the `typeof content === 'string'` / `Array.isArray(content)` dispatch. -/
inductive MessageContent where
  | str (s : String)
  | blocks (items : List ContentItem)

/-- `processMessageContent(content)` (createApp.ts lines 94-136): strings pass
through unchanged; arrays are processed per block.  The second component is
the number of `compressImage` invocations performed. -/
def processMessageContent : MessageContent → MessageContent × Nat
  | MessageContent.str s => (MessageContent.str s, 0)
  | MessageContent.blocks items =>
    let r := processItems items
    (MessageContent.blocks r.1, r.2)

/-- One block of an assistant response: a text block, or a tool-use block with
its id, tool name, and the (possibly truncated) `write_file` input fields. -/
inductive ContentBlock where
  | text (s : String)
  | toolUse (id : String) (toolName : String) (path? : Option String) (content? : Option String)
deriving DecidableEq

/-- Whether a block is a tool-use block (`block.type === 'tool_use'`). -/
def isToolUse : ContentBlock → Bool
  | ContentBlock.toolUse _ _ _ _ => true
  | _ => false

/-- The invocation id of a tool-use block, `none` for text blocks. -/
def toolUseId : ContentBlock → Option String
  | ContentBlock.toolUse id _ _ _ => some id
  | _ => none

/-- A tool-result block (`Anthropic.ToolResultBlockParam`). -/
structure ToolResultBlock where
  tool_use_id : String
  content : String
  is_error : Bool
deriving DecidableEq

/-- The success tool-result text for a committed `write_file` call. -/
def successMsg (path content : String) : String :=
  "File " ++ path ++ " created successfully with " ++ toString content.length ++ " characters"

/-- The error tool-result text for an incomplete `write_file` call. -/
def incompleteMsg : String :=
  "Error: Incomplete file data. Please try again with a simpler request."

/-- Processing of one response block inside the tool-use branch (createApp.ts
lines 230-255), threading the file accumulator and the tool-result list.  Only
`write_file` tool-use blocks are handled; `if (input.path && input.content)`
is JS truthiness, so a missing or empty path or content takes the error
branch and commits nothing. -/
def processBlock (acc : FileMap × List ToolResultBlock) (b : ContentBlock) :
    FileMap × List ToolResultBlock :=
  match b with
  | ContentBlock.text _ => acc
  | ContentBlock.toolUse id toolName path? content? =>
    if toolName == "write_file" then
      match path?, content? with
      | some p, some c =>
        if p == "" || c == "" then
          (acc.1, acc.2 ++ [⟨id, incompleteMsg, true⟩])
        else
          (mapSet acc.1 p c, acc.2 ++ [⟨id, successMsg p c, false⟩])
      | _, _ => (acc.1, acc.2 ++ [⟨id, incompleteMsg, true⟩])
    else acc

/-- All blocks of one assistant response, folded through `processBlock` with an
empty tool-result list. -/
def runBlocks (files : FileMap) (blocks : List ContentBlock) :
    FileMap × List ToolResultBlock :=
  blocks.foldl processBlock (files, [])

/-- A conversation turn: the initial user turn, an assistant response, or the
user-role turn carrying the tool results. -/
inductive Message where
  | user (content : MessageContent)
  | assistant (blocks : List ContentBlock)
  | toolResults (results : List ToolResultBlock)

/-- Result of the agentic loop: the final conversation, the file accumulator,
and the number of LLM round trips performed. -/
structure LoopResult where
  messages : List Message
  files : FileMap
  rounds : Nat

/-- The agentic loop `for (let i = 0; i < 10; i++)` (createApp.ts lines
206-268), with the loop bound as fuel: call the model on the conversation,
append its response; if the response has tool-use blocks, process them, append
the combined tool-result turn when non-empty, and continue; otherwise stop.
Exhausted fuel stops the loop without error. -/
def agentLoop (model : List Message → List ContentBlock) :
    Nat → List Message → FileMap → LoopResult
  | 0, msgs, files => ⟨msgs, files, 0⟩
  | fuel + 1, msgs, files =>
    let response := model msgs
    let msgs1 := msgs ++ [Message.assistant response]
    if response.any isToolUse then
      let fr := runBlocks files response
      let msgs2 := if fr.2.isEmpty then msgs1 else msgs1 ++ [Message.toolResults fr.2]
      let r := agentLoop model fuel msgs2 fr.1
      ⟨r.messages, r.files, r.rounds + 1⟩
    else ⟨msgs1, files, 1⟩

/- The system prompts are opaque steering text passed to the model; ASCII
apostrophes in the source text are rendered here as U+2019 to the same
effect. -/

/-- The update-mode system prompt (createApp.ts lines 158-169). -/
def updateSystemPrompt : String :=
  "You are an expert web developer. You are updating an existing web application based on the user’s modification request.

IMPORTANT INSTRUCTIONS FOR UPDATES:
- The user has an EXISTING app and wants to make SPECIFIC CHANGES to it
- You will be provided with the current files of the app
- ONLY modify the parts that need to change based on the user’s request
- Keep all other functionality and styling exactly as they are
- Use the write_file tool to write the UPDATED versions of files
- Only write files that actually need to be changed
- Make minimal, targeted changes - don’t rewrite the entire app unless necessary

The user wants to make specific changes to their existing app. Be surgical and precise."

/-- The create-mode system prompt (createApp.ts lines 170-181). -/
def createSystemPrompt : String :=
  "You are an expert web developer. Your task is to create a complete, working web application based on the user’s description.

IMPORTANT INSTRUCTIONS:
- Generate a complete, self-contained web application
- Always create at least an index.html file
- Include all necessary CSS and JavaScript inline in the HTML for simplicity
- Make the app visually appealing and functional with modern design
- Use modern web standards (HTML5, CSS3, ES6+)
- Use the write_file tool to create each file needed
- Make sure the app is fully functional and ready to use

Create a fully functional app that matches the user’s request."

/-- `existingFiles && existingFiles.length > 0`. -/
def isUpdate : Option (List GeneratedFile) → Bool
  | some fs => decide (0 < fs.length)
  | none => false

/-- System prompt selection: update mode iff prior files were supplied. -/
def systemPromptFor (existingFiles : Option (List GeneratedFile)) : String :=
  if isUpdate existingFiles then updateSystemPrompt else createSystemPrompt

/-- The serialized listing of the existing files included in the update-mode
user message (createApp.ts lines 188-190). -/
def filesContext (existingFiles : List GeneratedFile) : String :=
  String.intercalate "\n\n" (existingFiles.map (fun f =>
    "File: " ++ f.path ++ "\n```\n" ++ f.content ++ "\n```"))

/-- The user-message text: the prompt itself, prefixed in update mode with the
current files of the app (createApp.ts lines 184-193). -/
def userMessageText (prompt : String) (existingFiles : Option (List GeneratedFile)) : String :=
  match existingFiles with
  | some fs =>
    if 0 < fs.length then
      "Here are the current files of the app:\n\n" ++ filesContext fs ++
        "\n\nUser’s modification request: " ++ prompt
    else prompt
  | none => prompt

/-- The initial conversation: one user turn holding the processed message
content (createApp.ts lines 196-203). -/
def initialMessages (prompt : String) (existingFiles : Option (List GeneratedFile)) :
    List Message :=
  [Message.user (processMessageContent (MessageContent.str (userMessageText prompt existingFiles))).1]

/-- The pre-populated file accumulator: in update mode every existing file is
`set` into the map in order (createApp.ts lines 146-153). -/
def seedFiles : Option (List GeneratedFile) → FileMap
  | some fs =>
    if 0 < fs.length then fs.foldl (fun m f => mapSet m f.path f.content) [] else []
  | none => []

/-- A model stub: from the system prompt and the conversation so far to the
content blocks of the assistant response.  This abstracts
`client.messages.create` (the conversation is the only varying input per
call). -/
abbrev ModelFn := String → List Message → List ContentBlock

/-- The loop run performed by `createApp`: fuel 10, the initial user turn, and
the seeded accumulator. -/
def createAppLoop (model : ModelFn) (prompt : String)
    (existingFiles : Option (List GeneratedFile)) : LoopResult :=
  agentLoop (model (systemPromptFor existingFiles)) 10
    (initialMessages prompt existingFiles) (seedFiles existingFiles)

/-- The file list built from the accumulator after the loop (createApp.ts
lines 272-275). -/
def createAppFiles (model : ModelFn) (prompt : String)
    (existingFiles : Option (List GeneratedFile)) : List GeneratedFile :=
  (createAppLoop model prompt existingFiles).files.map (fun pc => GeneratedFile.mk pc.1 pc.2)

/-- The message of the error thrown when the loop ends with zero files. -/
def genErrMsg : String :=
  "No files were generated. Please try again with a more specific prompt."

/-- `createApp(prompt, existingFiles)` (createApp.ts lines 138-287) given a
model stub, returning the result (or the zero-files error) together with the
number of LLM round trips the loop performed. -/
def createApp (model : ModelFn) (prompt : String)
    (existingFiles : Option (List GeneratedFile)) :
    Except String AppGenerationResult × Nat :=
  (if (createAppFiles model prompt existingFiles).length = 0 then Except.error genErrMsg
   else Except.ok ⟨createAppFiles model prompt existingFiles⟩,
   (createAppLoop model prompt existingFiles).rounds)

/- Helper lemmas about the JS-Map model. -/

lemma mapSet_keys_of_mem (m : FileMap) (k v : String)
    (h : m.any (fun p => p.1 == k) = true) :
    (mapSet m k v).map Prod.fst = m.map Prod.fst := by
  simp only [mapSet, h, if_true, List.map_map]
  apply List.map_congr_left
  intro p _
  simp only [Function.comp_apply]
  by_cases hp : p.1 == k
  · rw [if_pos hp]
    exact (eq_of_beq hp).symm
  · rw [if_neg hp]

lemma mapSet_of_not_mem (m : FileMap) (k v : String)
    (h : m.any (fun p => p.1 == k) = false) :
    mapSet m k v = m ++ [(k, v)] := by
  simp only [mapSet, h]
  simp

lemma keys_nodup_mapSet (m : FileMap) (k v : String)
    (h : (m.map Prod.fst).Nodup) :
    ((mapSet m k v).map Prod.fst).Nodup := by
  cases ha : m.any (fun p => p.1 == k) with
  | true => rw [mapSet_keys_of_mem m k v ha]; exact h
  | false =>
    rw [mapSet_of_not_mem m k v ha]
    have hk : k ∉ m.map Prod.fst := by
      intro hmem
      rcases List.mem_map.mp hmem with ⟨p, hp, hpk⟩
      have := List.any_eq_false.mp ha p hp
      simp [hpk] at this
    simp [List.nodup_append, h, hk]

lemma find_upd (m : FileMap) (k v : String) :
    (m.map (fun p => if p.1 == k then (k, v) else p)).find? (fun p => p.1 == k) =
      if m.any (fun p => p.1 == k) then some (k, v) else none := by
  induction m with
  | nil => simp
  | cons p m ih =>
    by_cases hp : p.1 == k
    · simp [List.find?, hp, ih]
    · simp only [List.map_cons, List.any_cons, hp, Bool.false_or, if_neg hp]
      rw [List.find?_cons_of_neg _ (by simpa using hp)]
      exact ih

lemma mapGet_mapSet_self (m : FileMap) (k v : String) :
    mapGet (mapSet m k v) k = some v := by
  cases ha : m.any (fun p => p.1 == k) with
  | true =>
    simp only [mapGet, mapSet, ha, if_true]
    rw [find_upd m k v, ha]
    simp
  | false =>
    rw [mapSet_of_not_mem m k v ha]
    simp only [mapGet, List.find?_append]
    have hnone : m.find? (fun p => p.1 == k) = none := by
      apply List.find?_eq_none.mpr
      intro p hp
      simp [List.any_eq_false.mp ha p hp]
    simp [hnone, List.find?]

lemma mem_mapSet (m : FileMap) (k v : String) (x : String × String)
    (h : x ∈ mapSet m k v) : x ∈ m ∨ x = (k, v) := by
  cases ha : m.any (fun p => p.1 == k) with
  | true =>
    simp only [mapSet, ha, if_true] at h
    rcases List.mem_map.mp h with ⟨p, hp, he⟩
    by_cases hpk : p.1 == k
    · right; rw [if_pos hpk] at he; exact he.symm
    · left; rw [if_neg hpk] at he; exact he ▸ hp
  | false =>
    rw [mapSet_of_not_mem m k v ha] at h
    rcases List.mem_append.mp h with hm | hs
    · exact Or.inl hm
    · right; simpa using hs

/- Helper lemmas about block processing and the loop. -/

lemma processBlock_text (acc : FileMap × List ToolResultBlock) (s : String) :
    processBlock acc (ContentBlock.text s) = acc := rfl

lemma processBlock_writeFile_noPath (acc : FileMap × List ToolResultBlock)
    (id : String) (content? : Option String) :
    processBlock acc (ContentBlock.toolUse id "write_file" none content?) =
      (acc.1, acc.2 ++ [⟨id, incompleteMsg, true⟩]) := by
  cases content? <;> rfl

lemma processBlock_writeFile_noContent (acc : FileMap × List ToolResultBlock)
    (id : String) (path? : Option String) :
    processBlock acc (ContentBlock.toolUse id "write_file" path? none) =
      (acc.1, acc.2 ++ [⟨id, incompleteMsg, true⟩]) := by
  cases path? <;> rfl

lemma processBlock_writeFile_some (acc : FileMap × List ToolResultBlock)
    (id p c : String) :
    processBlock acc (ContentBlock.toolUse id "write_file" (some p) (some c)) =
      if (p == "" || c == "") = true then
        (acc.1, acc.2 ++ [⟨id, incompleteMsg, true⟩])
      else
        (mapSet acc.1 p c, acc.2 ++ [⟨id, successMsg p c, false⟩]) := rfl

lemma processBlock_keys_nodup (acc : FileMap × List ToolResultBlock) (b : ContentBlock)
    (h : (acc.1.map Prod.fst).Nodup) :
    ((processBlock acc b).1.map Prod.fst).Nodup := by
  cases b with
  | text s => exact h
  | toolUse id toolName path? content? =>
    by_cases hn : (toolName == "write_file") = true
    · have := eq_of_beq hn
      subst this
      cases path? with
      | none => rw [processBlock_writeFile_noPath]; exact h
      | some p =>
        cases content? with
        | none => rw [processBlock_writeFile_noContent]; exact h
        | some c =>
          rw [processBlock_writeFile_some]
          by_cases hne : (p == "" || c == "") = true
          · rw [if_pos hne]; exact h
          · rw [if_neg hne]; exact keys_nodup_mapSet _ _ _ h
    · simp only [processBlock, if_neg hn]
      exact h

lemma foldl_processBlock_keys_nodup :
    ∀ (blocks : List ContentBlock) (acc : FileMap × List ToolResultBlock),
      (acc.1.map Prod.fst).Nodup →
      ((blocks.foldl processBlock acc).1.map Prod.fst).Nodup := by
  intro blocks
  induction blocks with
  | nil => intro acc h; exact h
  | cons b bs ih =>
    intro acc h
    rw [List.foldl_cons]
    exact ih _ (processBlock_keys_nodup acc b h)

lemma processBlock_entries (acc : FileMap × List ToolResultBlock) (b : ContentBlock)
    (h : ∀ pc ∈ acc.1, pc.1 ≠ "" ∧ pc.2 ≠ "") :
    ∀ pc ∈ (processBlock acc b).1, pc.1 ≠ "" ∧ pc.2 ≠ "" := by
  cases b with
  | text s => exact h
  | toolUse id toolName path? content? =>
    by_cases hn : (toolName == "write_file") = true
    · have := eq_of_beq hn
      subst this
      cases path? with
      | none => rw [processBlock_writeFile_noPath]; exact h
      | some p =>
        cases content? with
        | none => rw [processBlock_writeFile_noContent]; exact h
        | some c =>
          rw [processBlock_writeFile_some]
          by_cases hne : (p == "" || c == "") = true
          · rw [if_pos hne]; exact h
          · rw [if_neg hne]
            intro pc hpc
            rcases mem_mapSet _ _ _ _ hpc with hm | he
            · exact h pc hm
            · subst he
              constructor
              · intro hp; apply hne; simp; exact Or.inl hp
              · intro hc; apply hne; simp; exact Or.inr hc
    · simp only [processBlock, if_neg hn]
      exact h

lemma foldl_processBlock_entries :
    ∀ (blocks : List ContentBlock) (acc : FileMap × List ToolResultBlock),
      (∀ pc ∈ acc.1, pc.1 ≠ "" ∧ pc.2 ≠ "") →
      ∀ pc ∈ (blocks.foldl processBlock acc).1, pc.1 ≠ "" ∧ pc.2 ≠ "" := by
  intro blocks
  induction blocks with
  | nil => intro acc h; exact h
  | cons b bs ih =>
    intro acc h
    rw [List.foldl_cons]
    exact ih _ (processBlock_entries acc b h)

lemma foldl_processBlock_ids :
    ∀ (blocks : List ContentBlock) (acc : FileMap × List ToolResultBlock),
      (∀ i nm p c, ContentBlock.toolUse i nm p c ∈ blocks → nm = "write_file") →
      ((blocks.foldl processBlock acc).2).map ToolResultBlock.tool_use_id =
        acc.2.map ToolResultBlock.tool_use_id ++ blocks.filterMap toolUseId := by
  intro blocks
  induction blocks with
  | nil => intro acc _; simp
  | cons b bs ih =>
    intro acc hnm
    have htail : ∀ i nm p c, ContentBlock.toolUse i nm p c ∈ bs → nm = "write_file" :=
      fun i nm p c hm => hnm i nm p c (List.mem_cons_of_mem _ hm)
    rw [List.foldl_cons]
    cases b with
    | text s =>
      rw [processBlock_text, ih acc htail]
      simp [toolUseId]
    | toolUse id toolName path? content? =>
      have hw : toolName = "write_file" := hnm id toolName path? content? (List.mem_cons_self _ _)
      subst hw
      cases path? with
      | none =>
        rw [processBlock_writeFile_noPath, ih _ htail]
        simp [toolUseId]
      | some p =>
        cases content? with
        | none =>
          rw [processBlock_writeFile_noContent, ih _ htail]
          simp [toolUseId]
        | some c =>
          rw [processBlock_writeFile_some]
          by_cases hne : (p == "" || c == "") = true
          · rw [if_pos hne, ih _ htail]
            simp [toolUseId]
          · rw [if_neg hne, ih _ htail]
            simp [toolUseId]

lemma agentLoop_rounds_le (model : List Message → List ContentBlock) :
    ∀ (fuel : Nat) (msgs : List Message) (files : FileMap),
      (agentLoop model fuel msgs files).rounds ≤ fuel := by
  intro fuel
  induction fuel with
  | zero => intro msgs files; exact Nat.le_refl 0
  | succ n ih =>
    intro msgs files
    simp only [agentLoop]
    split
    · exact Nat.succ_le_succ (ih _ _)
    · exact Nat.succ_le_succ (Nat.zero_le n)

lemma agentLoop_rounds_pos (model : List Message → List ContentBlock)
    (fuel : Nat) (msgs : List Message) (files : FileMap) (h : 0 < fuel) :
    1 ≤ (agentLoop model fuel msgs files).rounds := by
  cases fuel with
  | zero => exact absurd h (by simp)
  | succ n =>
    simp only [agentLoop]
    split
    · exact Nat.succ_le_succ (Nat.zero_le _)
    · exact Nat.le_refl 1

lemma agentLoop_no_tool (model : List Message → List ContentBlock)
    (fuel : Nat) (msgs : List Message) (files : FileMap)
    (h : (model msgs).any isToolUse = false) :
    agentLoop model (fuel + 1) msgs files =
      ⟨msgs ++ [Message.assistant (model msgs)], files, 1⟩ := by
  simp only [agentLoop, h]
  simp

lemma agentLoop_keys_nodup (model : List Message → List ContentBlock) :
    ∀ (fuel : Nat) (msgs : List Message) (files : FileMap),
      (files.map Prod.fst).Nodup →
      ((agentLoop model fuel msgs files).files.map Prod.fst).Nodup := by
  intro fuel
  induction fuel with
  | zero => intro msgs files h; exact h
  | succ n ih =>
    intro msgs files h
    simp only [agentLoop]
    split
    · exact ih _ _ (foldl_processBlock_keys_nodup _ _ h)
    · exact h

lemma agentLoop_entries (model : List Message → List ContentBlock) :
    ∀ (fuel : Nat) (msgs : List Message) (files : FileMap),
      (∀ pc ∈ files, pc.1 ≠ "" ∧ pc.2 ≠ "") →
      ∀ pc ∈ (agentLoop model fuel msgs files).files, pc.1 ≠ "" ∧ pc.2 ≠ "" := by
  intro fuel
  induction fuel with
  | zero => intro msgs files h; exact h
  | succ n ih =>
    intro msgs files h
    simp only [agentLoop]
    split
    · exact ih _ _ (foldl_processBlock_entries _ _ h)
    · exact h

/- Helper lemmas about the seeded accumulator. -/

lemma seed_keys_nodup :
    ∀ (fs : List GeneratedFile) (m : FileMap),
      (m.map Prod.fst).Nodup →
      ((fs.foldl (fun m f => mapSet m f.path f.content) m).map Prod.fst).Nodup := by
  intro fs
  induction fs with
  | nil => intro m h; exact h
  | cons f fs ih =>
    intro m h
    rw [List.foldl_cons]
    exact ih _ (keys_nodup_mapSet _ _ _ h)

lemma seedFiles_keys_nodup (existingFiles : Option (List GeneratedFile)) :
    ((seedFiles existingFiles).map Prod.fst).Nodup := by
  cases existingFiles with
  | none => simp [seedFiles]
  | some fs =>
    simp only [seedFiles]
    split
    · exact seed_keys_nodup fs [] (by simp)
    · simp

lemma seed_eq_of_nodup :
    ∀ (fs : List GeneratedFile) (m : FileMap),
      (m.map Prod.fst ++ fs.map GeneratedFile.path).Nodup →
      fs.foldl (fun m f => mapSet m f.path f.content) m =
        m ++ fs.map (fun f => (f.path, f.content)) := by
  intro fs
  induction fs with
  | nil => intro m _; simp
  | cons f fs ih =>
    intro m h
    have hnotin : f.path ∉ m.map Prod.fst := by
      intro hmem
      have hd := List.disjoint_of_nodup_append h
      exact hd hmem (by simp)
    have hany : m.any (fun p => p.1 == f.path) = false := by
      rw [List.any_eq_false]
      intro p hp hbe
      exact hnotin (eq_of_beq hbe ▸ List.mem_map_of_mem Prod.fst hp)
    rw [List.foldl_cons, mapSet_of_not_mem m f.path f.content hany]
    rw [ih (m ++ [(f.path, f.content)]) (by simpa using h)]
    simp

lemma map_pair_mk (fs : List GeneratedFile) :
    (fs.map (fun f => (f.path, f.content))).map (fun pc => GeneratedFile.mk pc.1 pc.2) = fs := by
  rw [List.map_map]
  have : ((fun pc : String × String => GeneratedFile.mk pc.1 pc.2) ∘
      fun f : GeneratedFile => (f.path, f.content)) = fun f => f := rfl
  rw [this, List.map_id']

/- Claim theorems. -/

/-- C1: the agentic loop run by `createApp` performs at most 10 LLM round
trips for every model stub, prompt and prior-file input; and whenever the
model's response to the initial conversation contains no tool-use block, the
loop exits after exactly one round trip with the file accumulator exactly as
it was seeded. -/
theorem createApp_turn_budget (model : ModelFn) (prompt : String)
    (existingFiles : Option (List GeneratedFile)) :
    (createApp model prompt existingFiles).2 ≤ 10 ∧
    ((model (systemPromptFor existingFiles) (initialMessages prompt existingFiles)).any isToolUse
        = false →
      (createApp model prompt existingFiles).2 = 1 ∧
      (createAppLoop model prompt existingFiles).files = seedFiles existingFiles) := by
  constructor
  · exact agentLoop_rounds_le (model (systemPromptFor existingFiles)) 10
      (initialMessages prompt existingFiles) (seedFiles existingFiles)
  · intro h
    have e := agentLoop_no_tool (model (systemPromptFor existingFiles)) 9
      (initialMessages prompt existingFiles) (seedFiles existingFiles) h
    constructor
    · show (agentLoop (model (systemPromptFor existingFiles)) (9 + 1)
        (initialMessages prompt existingFiles) (seedFiles existingFiles)).rounds = 1
      rw [e]
    · show (agentLoop (model (systemPromptFor existingFiles)) (9 + 1)
        (initialMessages prompt existingFiles) (seedFiles existingFiles)).files
          = seedFiles existingFiles
      rw [e]

/-- Model stub for the C1 witness: never emits a tool call. -/
def noToolModelC1 : ModelFn := fun _ _ => [ContentBlock.text "done"]

/-- Witness for C1 at a concrete no-tool-call model stub. -/
theorem createApp_turn_budget_witness :
    (createApp noToolModelC1 "make an app" none).2 ≤ 10 ∧
    ((createApp noToolModelC1 "make an app" none).2 = 1 ∧
      (createAppLoop noToolModelC1 "make an app" none).files = seedFiles none) := by
  have h := createApp_turn_budget noToolModelC1 "make an app" none
  exact ⟨h.1, h.2 (by decide)⟩

/-- C2: `createApp` fails (with the zero-files generation error) if and only
if the file accumulator is empty when the loop ends; whenever at least one
file accumulated — however the loop ended — the accumulated files are
returned. -/
theorem createApp_genError_iff (model : ModelFn) (prompt : String)
    (existingFiles : Option (List GeneratedFile)) :
    ((createApp model prompt existingFiles).1 = Except.error genErrMsg ↔
      createAppFiles model prompt existingFiles = []) ∧
    (createAppFiles model prompt existingFiles ≠ [] →
      (createApp model prompt existingFiles).1 =
        Except.ok ⟨createAppFiles model prompt existingFiles⟩) := by
  have hok : ∀ h : createAppFiles model prompt existingFiles ≠ [],
      (createApp model prompt existingFiles).1 =
        Except.ok ⟨createAppFiles model prompt existingFiles⟩ := by
    intro hne
    have hlen : ¬ (createAppFiles model prompt existingFiles).length = 0 := by
      intro h0
      exact hne (List.length_eq_zero.mp h0)
    simp [createApp, hne]
  constructor
  · constructor
    · intro h
      by_contra hne
      rw [hok hne] at h
      exact Except.noConfusion h
    · intro h
      simp [createApp, h]
  · exact hok

/-- Model stub for the C2 witness: one `write_file` call, then stop. -/
def oneFileModelC2 : ModelFn := fun _ msgs =>
  if msgs.length == 1 then
    [ContentBlock.toolUse "toolu_1" "write_file" (some "index.html") (some "<html></html>")]
  else [ContentBlock.text "done"]

/-- Witness for C2: with one accumulated file the accumulated files are
returned and no generation error is raised. -/
theorem createApp_genError_iff_witness :
    (createApp oneFileModelC2 "a countdown timer" none).1 =
      Except.ok ⟨[⟨"index.html", "<html></html>"⟩]⟩ := by
  have h := (createApp_genError_iff oneFileModelC2 "a countdown timer" none).2 (by decide)
  rw [h]
  rfl

/-- Model stub for the C3 witness: writes `a.html` in two consecutive turns
with different contents, then stops. -/
def lastWinsModelC3 : ModelFn := fun _ msgs =>
  if msgs.length == 1 then
    [ContentBlock.toolUse "toolu_1" "write_file" (some "a.html") (some "X")]
  else if msgs.length == 3 then
    [ContentBlock.toolUse "toolu_2" "write_file" (some "a.html") (some "Y")]
  else [ContentBlock.text "done"]

/-- C3: the returned file list never repeats a path (for every model stub and
input); `Map.set` makes the last write to a path win; and on the concrete
two-turn stub writing `a.html` twice the final content is the later one. -/
theorem lastWriteWins :
    (∀ (model : ModelFn) (prompt : String) (existingFiles : Option (List GeneratedFile)),
      ((createAppFiles model prompt existingFiles).map GeneratedFile.path).Nodup) ∧
    (∀ (m : FileMap) (k v : String), mapGet (mapSet m k v) k = some v) ∧
    (createApp lastWinsModelC3 "p" none).1 = Except.ok ⟨[⟨"a.html", "Y"⟩]⟩ := by
  refine ⟨?_, ?_, ?_⟩
  · intro model prompt existingFiles
    have h := agentLoop_keys_nodup (model (systemPromptFor existingFiles)) 10
      (initialMessages prompt existingFiles) (seedFiles existingFiles)
      (seedFiles_keys_nodup existingFiles)
    show ((((createAppLoop model prompt existingFiles).files).map
      (fun pc => GeneratedFile.mk pc.1 pc.2)).map GeneratedFile.path).Nodup
    rw [List.map_map]
    have hcomp : (GeneratedFile.path ∘ fun pc : String × String =>
        GeneratedFile.mk pc.1 pc.2) = Prod.fst := rfl
    rw [hcomp]
    exact h
  · exact mapGet_mapSet_self
  · rfl

/-- Model stub for the C4 witness: never emits a tool call. -/
def noToolModelC4 : ModelFn := fun _ _ => [ContentBlock.text "no changes needed"]

/-- C4: in update mode (non-empty prior files, paths unique as in a FileSet),
a model stub that emits no tool calls makes `createApp` return exactly the
prior files, paths and contents unchanged. -/
theorem updateMode_preserves (model : ModelFn) (prompt : String)
    (fs : List GeneratedFile) (hne : fs ≠ [])
    (hnodup : (fs.map GeneratedFile.path).Nodup)
    (hnotool : (model (systemPromptFor (some fs)) (initialMessages prompt (some fs))).any isToolUse
      = false) :
    (createApp model prompt (some fs)).1 = Except.ok ⟨fs⟩ := by
  have hlen : 0 < fs.length := List.length_pos.mpr hne
  have hseed : seedFiles (some fs) = fs.map (fun f => (f.path, f.content)) := by
    simp only [seedFiles, if_pos hlen]
    have h := seed_eq_of_nodup fs [] (by simpa using hnodup)
    simpa using h
  have e := agentLoop_no_tool (model (systemPromptFor (some fs))) 9
    (initialMessages prompt (some fs)) (seedFiles (some fs)) hnotool
  have hloop : (createAppLoop model prompt (some fs)).files = seedFiles (some fs) := by
    show (agentLoop (model (systemPromptFor (some fs))) (9 + 1)
      (initialMessages prompt (some fs)) (seedFiles (some fs))).files = seedFiles (some fs)
    rw [e]
  have hfiles : createAppFiles model prompt (some fs) = fs := by
    show ((createAppLoop model prompt (some fs)).files).map
      (fun pc => GeneratedFile.mk pc.1 pc.2) = fs
    rw [hloop, hseed]
    exact map_pair_mk fs
  have hlen2 : ¬ (createAppFiles model prompt (some fs)).length = 0 := by
    rw [hfiles]
    intro h0
    exact hne (List.length_eq_zero.mp h0)
  simp [createApp, hfiles, hne]

/-- Witness for C4 at a concrete prior file and a no-tool-call stub. -/
theorem updateMode_preserves_witness :
    (createApp noToolModelC4 "keep it" (some [⟨"index.html", "OLD"⟩])).1 =
      Except.ok ⟨[⟨"index.html", "OLD"⟩]⟩ :=
  updateMode_preserves noToolModelC4 "keep it" [⟨"index.html", "OLD"⟩]
    (by decide) (by decide) (by decide)

/-- C5: a `write_file` invocation with a missing path or content field commits
nothing to the file accumulator and synthesizes an error tool-result; and a
response containing tool invocations keeps the loop going — the next LLM
round trip still happens — instead of aborting the generation. -/
theorem incomplete_toolCall_recovers (files : FileMap) (res : List ToolResultBlock)
    (id : String) (path? content? : Option String)
    (h : path? = none ∨ content? = none) :
    processBlock (files, res) (ContentBlock.toolUse id "write_file" path? content?) =
      (files, res ++ [⟨id, incompleteMsg, true⟩]) ∧
    (∀ (model : List Message → List ContentBlock) (msgs : List Message)
        (fl : FileMap) (n : Nat),
      (model msgs).any isToolUse = true →
      2 ≤ (agentLoop model (n + 2) msgs fl).rounds) := by
  constructor
  · rcases h with h | h
    · subst h
      exact processBlock_writeFile_noPath (files, res) id content?
    · subst h
      exact processBlock_writeFile_noContent (files, res) id path?
  · intro model msgs fl n htool
    show 2 ≤ (agentLoop model (n + 1 + 1) msgs fl).rounds
    simp only [agentLoop, htool, if_true]
    exact Nat.succ_le_succ (agentLoop_rounds_pos model (n + 1) _ _ (Nat.succ_pos n))

/-- Model stub for the C5 witness: always emits a truncated write_file call. -/
def truncatedModelC5 : List Message → List ContentBlock :=
  fun _ => [ContentBlock.toolUse "toolu_x" "write_file" none none]

/-- Witness for C5 at a concrete truncated invocation. -/
theorem incomplete_toolCall_recovers_witness :
    processBlock ([], []) (ContentBlock.toolUse "toolu_1" "write_file" none (some "body")) =
      ([], [⟨"toolu_1", incompleteMsg, true⟩]) ∧
    2 ≤ (agentLoop truncatedModelC5 2 [] []).rounds := by
  have h := incomplete_toolCall_recovers [] [] "toolu_1" none (some "body") (Or.inl rfl)
  exact ⟨h.1, h.2 truncatedModelC5 [] [] 0 (by decide)⟩

/-- C6: when the response holds at least one tool-use block and every tool-use
block names `write_file` (the only tool the loop ever declares to the API),
the loop synthesizes exactly one tool-result per tool-use block — correlated
by invocation id, in order — and hands the conversation extended with the
assistant turn followed by the single combined tool-result turn to the next
LLM call. -/
theorem toolResult_invariant (model : List Message → List ContentBlock)
    (msgs : List Message) (files : FileMap) (n : Nat)
    (htool : (model msgs).any isToolUse = true)
    (hnames : ∀ i nm p c, ContentBlock.toolUse i nm p c ∈ model msgs → nm = "write_file") :
    ((runBlocks files (model msgs)).2).map ToolResultBlock.tool_use_id =
      (model msgs).filterMap toolUseId ∧
    agentLoop model (n + 1) msgs files =
      ⟨(agentLoop model n
          (msgs ++ [Message.assistant (model msgs),
            Message.toolResults (runBlocks files (model msgs)).2])
          (runBlocks files (model msgs)).1).messages,
        (agentLoop model n
          (msgs ++ [Message.assistant (model msgs),
            Message.toolResults (runBlocks files (model msgs)).2])
          (runBlocks files (model msgs)).1).files,
        (agentLoop model n
          (msgs ++ [Message.assistant (model msgs),
            Message.toolResults (runBlocks files (model msgs)).2])
          (runBlocks files (model msgs)).1).rounds + 1⟩ := by
  have hids : ((runBlocks files (model msgs)).2).map ToolResultBlock.tool_use_id =
      (model msgs).filterMap toolUseId := by
    have h := foldl_processBlock_ids (model msgs) (files, []) hnames
    simpa [runBlocks] using h
  refine ⟨hids, ?_⟩
  have hne : ¬ (runBlocks files (model msgs)).2.isEmpty = true := by
    rcases List.any_eq_true.mp htool with ⟨b, hb, hbt⟩
    cases b with
    | text s => simp [isToolUse] at hbt
    | toolUse i nm p c =>
      have hmem : i ∈ (model msgs).filterMap toolUseId :=
        List.mem_filterMap.mpr ⟨ContentBlock.toolUse i nm p c, hb, rfl⟩
      intro hemp
      rw [List.isEmpty_iff] at hemp
      rw [hemp] at hids
      simp only [List.map_nil] at hids
      rw [← hids] at hmem
      exact absurd hmem (List.not_mem_nil i)
  simp only [agentLoop, htool, if_true, if_neg hne]
  rw [List.append_assoc]
  rfl

/-- Model stub for the C6 witness: one write_file invocation per response. -/
def writeModelC6 : List Message → List ContentBlock :=
  fun _ => [ContentBlock.toolUse "toolu_9" "write_file" (some "b.html") (some "B")]

/-- Witness for C6 at a concrete single-invocation response. -/
theorem toolResult_invariant_witness :
    ((runBlocks [] (writeModelC6 [])).2).map ToolResultBlock.tool_use_id =
      (writeModelC6 []).filterMap toolUseId ∧
    agentLoop writeModelC6 1 [] [] =
      ⟨(agentLoop writeModelC6 0
          ([] ++ [Message.assistant (writeModelC6 []),
            Message.toolResults (runBlocks [] (writeModelC6 [])).2])
          (runBlocks [] (writeModelC6 [])).1).messages,
        (agentLoop writeModelC6 0
          ([] ++ [Message.assistant (writeModelC6 []),
            Message.toolResults (runBlocks [] (writeModelC6 [])).2])
          (runBlocks [] (writeModelC6 [])).1).files,
        (agentLoop writeModelC6 0
          ([] ++ [Message.assistant (writeModelC6 []),
            Message.toolResults (runBlocks [] (writeModelC6 [])).2])
          (runBlocks [] (writeModelC6 [])).1).rounds + 1⟩ := by
  refine toolResult_invariant writeModelC6 [] [] 0 (by decide) ?_
  intro i nm p c hm
  cases List.mem_singleton.mp hm
  rfl

/-- Model stub for the C10 witness: always tries to write an empty path. -/
def emptyWriteModelC10 : List Message → List ContentBlock :=
  fun _ => [ContentBlock.toolUse "toolu_e" "write_file" (some "") (some "x")]

/-- C10: an empty-string path or content in a `write_file` invocation is falsy
in JS, so it is treated exactly like a missing field: the error tool-result is
synthesized and nothing is committed; consequently a loop run whose seed holds
no empty path or content never has an empty path or content in its final
accumulator — no tool call ever commits one. -/
theorem emptyString_toolCall (files : FileMap) (res : List ToolResultBlock) (id : String) :
    (∀ content? : Option String,
      processBlock (files, res) (ContentBlock.toolUse id "write_file" (some "") content?) =
        (files, res ++ [⟨id, incompleteMsg, true⟩])) ∧
    (∀ path? : Option String,
      processBlock (files, res) (ContentBlock.toolUse id "write_file" path? (some "")) =
        (files, res ++ [⟨id, incompleteMsg, true⟩])) ∧
    (∀ (model : List Message → List ContentBlock) (fuel : Nat) (msgs : List Message)
        (fl : FileMap),
      (∀ pc ∈ fl, pc.1 ≠ "" ∧ pc.2 ≠ "") →
      ∀ pc ∈ (agentLoop model fuel msgs fl).files, pc.1 ≠ "" ∧ pc.2 ≠ "") := by
  refine ⟨?_, ?_, ?_⟩
  · intro content?
    cases content? with
    | none => exact processBlock_writeFile_noContent (files, res) id (some "")
    | some c =>
      rw [processBlock_writeFile_some, if_pos (by simp)]
  · intro path?
    cases path? with
    | none => exact processBlock_writeFile_noPath (files, res) id (some "")
    | some p =>
      rw [processBlock_writeFile_some, if_pos (by simp)]
  · exact fun model fuel msgs fl h => agentLoop_entries model fuel msgs fl h

/-- Witness for C10 at concrete empty-string invocations and a concrete run. -/
theorem emptyString_toolCall_witness :
    processBlock ([], []) (ContentBlock.toolUse "toolu_e" "write_file" (some "") (some "hello")) =
      ([], [⟨"toolu_e", incompleteMsg, true⟩]) ∧
    processBlock ([], []) (ContentBlock.toolUse "toolu_e" "write_file" (some "a.html") (some "")) =
      ([], [⟨"toolu_e", incompleteMsg, true⟩]) ∧
    (∀ pc ∈ (agentLoop emptyWriteModelC10 10 [] []).files, pc.1 ≠ "" ∧ pc.2 ≠ "") := by
  have h := emptyString_toolCall [] [] "toolu_e"
  refine ⟨h.1 (some "hello"), h.2.1 (some "a.html"), ?_⟩
  refine h.2.2 emptyWriteModelC10 10 [] [] ?_
  intro pc hpc
  exact absurd hpc (List.not_mem_nil pc)

/- Arithmetic helper lemmas about the rounded aspect-ratio computation. -/

lemma jsRound_bounds (a L : Nat) (hL : 0 < L) :
    2 * L * jsRound a L ≤ 2 * a + L ∧ 2 * a ≤ 2 * L * jsRound a L + L := by
  have hdm := Nat.div_add_mod (2 * a + L) (2 * L)
  have hmlt : (2 * a + L) % (2 * L) < 2 * L := Nat.mod_lt _ (by omega)
  unfold jsRound
  constructor
  · linarith [Nat.zero_le ((2 * a + L) % (2 * L))]
  · linarith [Nat.zero_le ((2 * a + L) % (2 * L))]

lemma jsRound_le_self (s L : Nat) (hs : 1 ≤ s) (hL : 1025 ≤ L) :
    jsRound (s * 1024) L ≤ s := by
  have h := (jsRound_bounds (s * 1024) L (by omega)).1
  by_contra hq
  push_neg at hq
  have h2 : 2 * L * (s + 1) ≤ 2 * L * jsRound (s * 1024) L :=
    Nat.mul_le_mul_left (2 * L) hq
  have h3 : 2050 * s ≤ 2 * L * s := Nat.mul_le_mul_right s (by omega)
  have h4 : 2 * L * (s + 1) = 2 * L * s + 2 * L := by ring
  have h5 : 2 * (s * 1024) = 2048 * s := by ring
  linarith

lemma jsRound_le_1024 (s L : Nat) (h : s < L) (hL : 0 < L) :
    jsRound (s * 1024) L ≤ 1024 := by
  unfold jsRound
  have h2 : 2 * (s * 1024) + L < 1025 * (2 * L) := by omega
  have h3 : (2 * (s * 1024) + L) / (2 * L) < 1025 :=
    (Nat.div_lt_iff_lt_mul (by omega)).mpr h2
  omega

/-- C8: the dimension computation of `compressImage` never upscales — for
every known (truthy) input width and height, each target dimension is at most
the corresponding input dimension and at most 1024; dimensions already within
1024 are unchanged, and in the shrinking branches the longer side is capped at
exactly 1024 while the shorter side preserves the aspect ratio up to rounding
(two-sided bound within half a pixel). -/
theorem normalize_never_upscales (w h w' h' : Nat) (hw : w ≠ 0) (hh : h ≠ 0)
    (he : computeTargetDims (some w) (some h) = (some w', some h')) :
    w' ≤ w ∧ h' ≤ h ∧ w' ≤ 1024 ∧ h' ≤ 1024 ∧
    (w ≤ 1024 → h ≤ 1024 → w' = w ∧ h' = h) ∧
    (h < w → 1024 < w → w' = 1024 ∧
      2048 * h ≤ 2 * w * h' + w ∧ 2 * w * h' ≤ 2048 * h + w) ∧
    (¬ h < w → 1024 < h → h' = 1024 ∧
      2048 * w ≤ 2 * h * w' + h ∧ 2 * h * w' ≤ 2048 * w + h) := by
  simp only [computeTargetDims, if_pos (And.intro hw hh)] at he
  by_cases hhw : h < w
  · rw [if_pos hhw] at he
    by_cases hw1024 : 1024 < w
    · rw [if_pos hw1024] at he
      simp only [Prod.mk.injEq, Option.some.injEq] at he
      obtain ⟨hw', hh'⟩ := he
      subst hw'
      subst hh'
      have hb := jsRound_bounds (h * 1024) w (by omega)
      have h5 : 2 * (h * 1024) = 2048 * h := by ring
      refine ⟨by omega, ?_, le_refl 1024, ?_, ?_, ?_, ?_⟩
      · exact jsRound_le_self h w (by omega) (by omega)
      · exact jsRound_le_1024 h w hhw (by omega)
      · intro hcon _
        exact absurd hw1024 (by omega)
      · intro _ _
        refine ⟨rfl, ?_, ?_⟩
        · linarith [hb.2]
        · linarith [hb.1]
      · intro hcon _
        exact absurd hhw hcon
    · rw [if_neg hw1024] at he
      simp only [Prod.mk.injEq, Option.some.injEq] at he
      obtain ⟨hw', hh'⟩ := he
      subst hw'
      subst hh'
      refine ⟨le_refl w, le_refl h, by omega, by omega, fun _ _ => ⟨rfl, rfl⟩, ?_, ?_⟩
      · intro _ hcon
        exact absurd hcon hw1024
      · intro hcon _
        exact absurd hhw hcon
  · rw [if_neg hhw] at he
    by_cases hh1024 : 1024 < h
    · rw [if_pos hh1024] at he
      simp only [Prod.mk.injEq, Option.some.injEq] at he
      obtain ⟨hw', hh'⟩ := he
      subst hw'
      subst hh'
      have hb := jsRound_bounds (w * 1024) h (by omega)
      have h5 : 2 * (w * 1024) = 2048 * w := by ring
      have hwh : w ≤ h := Nat.le_of_not_lt hhw
      refine ⟨?_, by omega, ?_, le_refl 1024, ?_, ?_, ?_⟩
      · exact jsRound_le_self w h (by omega) (by omega)
      · -- w' = jsRound (w * 1024) h ≤ 1024 also when w = h
        rcases Nat.lt_or_ge w h with hlt | hge
        · exact jsRound_le_1024 w h hlt (by omega)
        · have hwe : w = h := Nat.le_antisymm hwh hge
          subst hwe
          -- jsRound (w * 1024) w = 1024 exactly
          have : jsRound (w * 1024) w ≤ 1024 := by
            unfold jsRound
            have hdv : (2 * (w * 1024) + w) / (2 * w) < 1025 := by
              apply (Nat.div_lt_iff_lt_mul (by omega)).mpr
              nlinarith
            omega
          exact this
      · intro _ hcon
        exact absurd hh1024 (by omega)
      · intro hcon _
        exact absurd hcon hhw
      · intro _ _
        refine ⟨rfl, ?_, ?_⟩
        · linarith [hb.2]
        · linarith [hb.1]
    · rw [if_neg hh1024] at he
      simp only [Prod.mk.injEq, Option.some.injEq] at he
      obtain ⟨hw', hh'⟩ := he
      subst hw'
      subst hh'
      have hwh : w ≤ h := Nat.le_of_not_lt hhw
      refine ⟨le_refl w, le_refl h, by omega, by omega, fun _ _ => ⟨rfl, rfl⟩, ?_, ?_⟩
      · intro hcon _
        exact absurd hcon hhw
      · intro _ hcon
        exact absurd hcon hh1024

/-- Witness for C8 at a concrete 2048 by 1024 image, shrunk to 1024 by 512. -/
theorem normalize_never_upscales_witness :
    1024 ≤ 2048 ∧ 512 ≤ 1024 ∧ 1024 ≤ 1024 ∧ 512 ≤ 1024 ∧
    (2048 ≤ 1024 → 1024 ≤ 1024 → 1024 = 2048 ∧ 512 = 1024) ∧
    ((1024 : Nat) < 2048 → 1024 < 2048 → 1024 = 1024 ∧
      2048 * 1024 ≤ 2 * 2048 * 512 + 2048 ∧ 2 * 2048 * 512 ≤ 2048 * 1024 + 2048) ∧
    (¬ (1024 : Nat) < 2048 → 1024 < 1024 → 512 = 1024 ∧
      2048 * 2048 ≤ 2 * 1024 * 1024 + 1024 ∧ 2 * 1024 * 1024 ≤ 2048 * 2048 + 1024) :=
  normalize_never_upscales 2048 1024 1024 512 (by decide) (by decide) (by decide)

/-- The qualities `compressImage` attempts, in order: 80 first, then
decrements of 10 down to the floor of 10. -/
def qualityLadder : List Nat := [80, 70, 60, 50, 40, 30, 20, 10]

/-- C7: `compressImage` returns the encoding at the first quality on the
ladder (80, 70, ..., 10) whose byte length fits the `maxSizeMB` budget, and
fails when even the floor quality exceeds it; consequently a returned buffer
is never over budget. -/
theorem compress_first_fit :
    (∀ (meta : Option Nat × Option Nat) (enc : Option Nat × Option Nat → Nat → List Nat)
        (m : Nat),
      compressImage meta enc m =
        match qualityLadder.find? (fun q =>
            decide ((enc (computeTargetDims meta.1 meta.2) q).length ≤ m * 1024 * 1024)) with
        | some q => Except.ok (enc (computeTargetDims meta.1 meta.2) q)
        | none => Except.error compressionFailMsg) ∧
    (∀ (meta : Option Nat × Option Nat) (enc : Option Nat × Option Nat → Nat → List Nat)
        (m : Nat) (buf : List Nat),
      compressImage meta enc m = Except.ok buf → buf.length ≤ m * 1024 * 1024) := by
  have main : ∀ (meta : Option Nat × Option Nat)
      (enc : Option Nat × Option Nat → Nat → List Nat) (m : Nat),
      compressImage meta enc m =
        match qualityLadder.find? (fun q =>
            decide ((enc (computeTargetDims meta.1 meta.2) q).length ≤ m * 1024 * 1024)) with
        | some q => Except.ok (enc (computeTargetDims meta.1 meta.2) q)
        | none => Except.error compressionFailMsg := by
    intro meta enc m
    unfold compressImage
    generalize computeTargetDims meta.1 meta.2 = d
    generalize m * 1024 * 1024 = M
    by_cases h80 : (enc d 80).length ≤ M
    · simp [compressLoopGo, qualityLadder, h80, Nat.not_lt.mpr h80]
    · by_cases h70 : (enc d 70).length ≤ M
      · simp [compressLoopGo, qualityLadder, h80, Nat.not_le.mp h80, h70, Nat.not_lt.mpr h70]
      · by_cases h60 : (enc d 60).length ≤ M
        · simp [compressLoopGo, qualityLadder, h80, Nat.not_le.mp h80, h70, Nat.not_le.mp h70,
            h60, Nat.not_lt.mpr h60]
        · by_cases h50 : (enc d 50).length ≤ M
          · simp [compressLoopGo, qualityLadder, h80, Nat.not_le.mp h80, h70, Nat.not_le.mp h70,
              h60, Nat.not_le.mp h60, h50, Nat.not_lt.mpr h50]
          · by_cases h40 : (enc d 40).length ≤ M
            · simp [compressLoopGo, qualityLadder, h80, Nat.not_le.mp h80, h70, Nat.not_le.mp h70,
                h60, Nat.not_le.mp h60, h50, Nat.not_le.mp h50, h40, Nat.not_lt.mpr h40]
            · by_cases h30 : (enc d 30).length ≤ M
              · simp [compressLoopGo, qualityLadder, h80, Nat.not_le.mp h80, h70,
                  Nat.not_le.mp h70, h60, Nat.not_le.mp h60, h50, Nat.not_le.mp h50, h40,
                  Nat.not_le.mp h40, h30, Nat.not_lt.mpr h30]
              · by_cases h20 : (enc d 20).length ≤ M
                · simp [compressLoopGo, qualityLadder, h80, Nat.not_le.mp h80, h70,
                    Nat.not_le.mp h70, h60, Nat.not_le.mp h60, h50, Nat.not_le.mp h50, h40,
                    Nat.not_le.mp h40, h30, Nat.not_le.mp h30, h20, Nat.not_lt.mpr h20]
                · by_cases h10 : (enc d 10).length ≤ M
                  · simp [compressLoopGo, qualityLadder, h80, Nat.not_le.mp h80, h70,
                      Nat.not_le.mp h70, h60, Nat.not_le.mp h60, h50, Nat.not_le.mp h50, h40,
                      Nat.not_le.mp h40, h30, Nat.not_le.mp h30, h20, Nat.not_le.mp h20,
                      h10, Nat.not_lt.mpr h10]
                  · simp [compressLoopGo, qualityLadder, h80, Nat.not_le.mp h80, h70,
                      Nat.not_le.mp h70, h60, Nat.not_le.mp h60, h50, Nat.not_le.mp h50, h40,
                      Nat.not_le.mp h40, h30, Nat.not_le.mp h30, h20, Nat.not_le.mp h20,
                      h10, Nat.not_le.mp h10]
  refine ⟨main, ?_⟩
  intro meta enc m buf hok
  rw [main meta enc m] at hok
  cases hfind : qualityLadder.find? (fun q =>
      decide ((enc (computeTargetDims meta.1 meta.2) q).length ≤ m * 1024 * 1024)) with
  | none =>
    rw [hfind] at hok
    exact Except.noConfusion hok
  | some q =>
    rw [hfind] at hok
    have hq := List.find?_some hfind
    have hlen := of_decide_eq_true hq
    injection hok with hbuf
    rw [← hbuf]
    exact hlen

/-- Witness for C7: an encoder that fits the budget immediately yields an
in-budget buffer. -/
theorem compress_first_fit_witness :
    compressImage (some 2048, some 1024) (fun _ _ => [7]) 5 = Except.ok [7] ∧
    ([7] : List Nat).length ≤ 5 * 1024 * 1024 := by
  have h : compressImage (some 2048, some 1024) (fun _ _ => [7]) 5 = Except.ok [7] := by rfl
  exact ⟨h, compress_first_fit.2 (some 2048, some 1024) (fun _ _ => [7]) 5 [7] h⟩

/- Helper lemmas for the message-content pipeline. -/

lemma processItems_cons (item : ContentItem) (rest : List ContentItem) :
    processItems (item :: rest) =
      ((processItems [item]).1 ++ (processItems rest).1,
       (processItems [item]).2 + (processItems rest).2) := by
  cases item with
  | other s => simp [processItems]
  | image st data meta enc =>
    cases hb : (st == "base64") with
    | false => simp [processItems, hb]
    | true =>
      cases hv : validateImageSize data 5 with
      | true => simp [processItems, hb, hv]
      | false =>
        cases hc : compressImage meta enc 5 with
        | ok nd => simp [processItems, hb, hv, hc, Nat.add_comm]
        | error e => simp [processItems, hb, hv, hc, Nat.add_comm]

lemma compressLoopGo_const (R : List Nat) (dims : Option Nat × Option Nat) (M : Nat) :
    ∀ (fuel q : Nat), (compressLoopGo (fun _ _ => R) dims M fuel q R).2 = R := by
  intro fuel
  induction fuel with
  | zero => intro q; rfl
  | succ n ih =>
    intro q
    simp only [compressLoopGo]
    split
    · exact ih (q - 10)
    · rfl

lemma compressImage_const_big (meta : Option Nat × Option Nat) (R : List Nat) (m : Nat)
    (h : m * 1024 * 1024 < R.length) :
    compressImage meta (fun _ _ => R) m = Except.error compressionFailMsg := by
  simp only [compressImage]
  rw [compressLoopGo_const R (computeTargetDims meta.1 meta.2) (m * 1024 * 1024) 80 80]
  rw [if_pos h]

/-- A concrete payload one byte over the 5 MB ceiling. -/
def hugeBytes : List Nat := List.replicate 5242881 0

lemma hugeBytes_length : hugeBytes.length = 5242881 := by
  simp only [hugeBytes, List.length_replicate]

lemma validateImageSize_hugeBytes : validateImageSize hugeBytes 5 = false := by
  simp only [validateImageSize, hugeBytes_length]
  decide

/-- C9: `validateImageSize` accepts exactly the buffers within the byte
ceiling; the content pipeline processes blocks independently and in order
(never aborting the whole request); a base64 image within the 5 MB ceiling
passes through unchanged with `compressImage` never invoked on it; an
oversized one is replaced by its compressed payload; and one whose
compression fails is dropped from the output. -/
theorem messageContent_policy :
    (∀ (buffer : List Nat) (m : Nat),
      validateImageSize buffer m = true ↔ buffer.length ≤ m * 1024 * 1024) ∧
    (∀ (item : ContentItem) (rest : List ContentItem),
      processItems (item :: rest) =
        ((processItems [item]).1 ++ (processItems rest).1,
         (processItems [item]).2 + (processItems rest).2)) ∧
    (∀ st data meta enc, st = "base64" → validateImageSize data 5 = true →
      processItems [ContentItem.image st data meta enc] =
        ([ContentItem.image st data meta enc], 0)) ∧
    (∀ st data meta enc nd, st = "base64" → validateImageSize data 5 = false →
      compressImage meta enc 5 = Except.ok nd →
      processItems [ContentItem.image st data meta enc] =
        ([ContentItem.image st nd meta enc], 1)) ∧
    (∀ st data meta enc e, st = "base64" → validateImageSize data 5 = false →
      compressImage meta enc 5 = Except.error e →
      processItems [ContentItem.image st data meta enc] = ([], 1)) := by
  refine ⟨?_, processItems_cons, ?_, ?_, ?_⟩
  · intro buffer m
    simp [validateImageSize]
  · intro st data meta enc hst hv
    subst hst
    simp [processItems, hv]
  · intro st data meta enc nd hst hv hc
    subst hst
    simp [processItems, hv, hc]
  · intro st data meta enc e hst hv hc
    subst hst
    simp [processItems, hv, hc]

/-- Witness for C9: a small image passes through untouched, an oversized one
is replaced by its compressed payload, and an incompressible oversized one is
dropped. -/
theorem messageContent_policy_witness :
    (validateImageSize [0, 1, 2] 5 = true ↔ ([0, 1, 2] : List Nat).length ≤ 5 * 1024 * 1024) ∧
    processItems [ContentItem.image "base64" [0, 1, 2] (none, none) (fun _ _ => [])] =
      ([ContentItem.image "base64" [0, 1, 2] (none, none) (fun _ _ => [])], 0) ∧
    processItems [ContentItem.image "base64" hugeBytes (none, none) (fun _ _ => [])] =
      ([ContentItem.image "base64" [] (none, none) (fun _ _ => [])], 1) ∧
    processItems [ContentItem.image "base64" hugeBytes (none, none) (fun _ _ => hugeBytes)] =
      ([], 1) := by
  refine ⟨messageContent_policy.1 [0, 1, 2] 5, ?_, ?_, ?_⟩
  · exact messageContent_policy.2.2.1 "base64" [0, 1, 2] (none, none) (fun _ _ => [])
      rfl (by decide)
  · exact messageContent_policy.2.2.2.1 "base64" hugeBytes (none, none) (fun _ _ => []) []
      rfl validateImageSize_hugeBytes rfl
  · exact messageContent_policy.2.2.2.2 "base64" hugeBytes (none, none) (fun _ _ => hugeBytes)
      compressionFailMsg rfl validateImageSize_hugeBytes
      (compressImage_const_big (none, none) hugeBytes 5 (by rw [hugeBytes_length]; norm_num))

end Makeable
